import Mathlib

/-!
Coin accounts: the `/users` routes of `src/routes/users.js`.

A shallow embedding of the three handlers that touch the `users` collection
(`GET /users`, `POST /users`, `PUT /users/:id`) and the properties of the
transfer they implement.

Modelling conventions.

* The `users` collection is a list of records in insertion order.  A lodash
  `find({ id })` returns a reference to the first record whose `id` matches;
  a reference is modelled by the position of that record in the list.
* `coins` and the amount sent are integer-valued JavaScript numbers, the type
  `Num`: `+` and `-` on them round the exact result to the nearest number with
  a 53-bit significand, ties to even (`toDouble`).  The exponent range is not
  bounded: magnitudes of 2^1024 and above, where the source's numbers become
  `Infinity`, are outside the model, and so are `NaN` and fractions.
* Ids and usernames are strings (sequences of code points; every character
  that `trim` removes is a single code point).
* A handler is a function from the store and the request to the response and
  the store it leaves behind.  What the `catch` block receives is the value of
  type `Thrown`.
* `nanoid(idLength)` is a source of fresh ids; the generated id is an argument
  of the `POST` handler.
-/

namespace CoinsApi

/-- Number of low bits that do not fit a 53-bit significand: how often `a` is
halved before it is below 2^53 (`fuel` bounds the count). -/
def dropped : Nat → Nat → Nat
  | 0, _ => 0
  | fuel + 1, a => if a < 2 ^ 53 then 0 else dropped fuel (a / 2) + 1

/-- Round a natural number to 53 significant bits, to nearest, ties to the even
significand (the IEEE 754 default used by JavaScript arithmetic). -/
def roundNat (a : Nat) : Nat :=
  let e := dropped a a
  let q := a / 2 ^ e
  let r := a % 2 ^ e
  let half := 2 ^ (e - 1)
  if r < half then q * 2 ^ e
  else if r = half ∧ q % 2 = 0 then q * 2 ^ e
  else (q + 1) * 2 ^ e

/-- The JavaScript number nearest to an integer: integers up to 2^53 in
magnitude are exact, larger ones are rounded to 53 significant bits. -/
def toDouble (n : Int) : Int :=
  if n.natAbs ≤ 2 ^ 53 then n
  else if 0 ≤ n then (roundNat n.natAbs : Int)
  else -(roundNat n.natAbs : Int)

/-- An integer-valued JavaScript number: an integer that is the result of
rounding. -/
structure Num where
  val : Int
  rounded : ∃ m : Int, toDouble m = val

/-- The number that a numeric literal or an exact result denotes. -/
def Num.round (n : Int) : Num := ⟨toDouble n, n, rfl⟩

instance : DecidableEq Num := fun a b =>
  if h : a.val = b.val then isTrue (by cases a; cases b; cases h; rfl)
  else isFalse (fun e => h (congrArg Num.val e))

instance (n : Nat) : OfNat Num n := ⟨Num.round n⟩

/-- JavaScript `a + b`. -/
instance : Add Num := ⟨fun a b => Num.round (a.val + b.val)⟩

/-- JavaScript `a - b`. -/
instance : Sub Num := ⟨fun a b => Num.round (a.val - b.val)⟩

/-- JavaScript `-a`. -/
instance : Neg Num := ⟨fun a => Num.round (-a.val)⟩

/-- JavaScript `a < b`: exact on numbers. -/
instance : LT Num := ⟨fun a b => a.val < b.val⟩

instance : LE Num := ⟨fun a b => a.val ≤ b.val⟩

instance (a b : Num) : Decidable (a < b) := inferInstanceAs (Decidable (a.val < b.val))

instance (a b : Num) : Decidable (a ≤ b) := inferInstanceAs (Decidable (a.val ≤ b.val))

/-- A record of the `users` collection (swagger schema `User`). -/
structure User where
  id : String
  username : String
  coins : Num
deriving DecidableEq

/-- Contents of `req.app.db.get("users")`. -/
abbrev Db := List User

/-- Code points removed by `String.prototype.trim`: the ECMAScript `WhiteSpace`
and `LineTerminator` productions. -/
def isTrimChar (c : Char) : Bool :=
  let n := c.toNat
  n == 0x09 || n == 0x0A || n == 0x0B || n == 0x0C || n == 0x0D || n == 0x20 ||
  n == 0xA0 || n == 0x1680 || (0x2000 ≤ n && n ≤ 0x200A) || n == 0x2028 ||
  n == 0x2029 || n == 0x202F || n == 0x205F || n == 0x3000 || n == 0xFEFF

/-- JavaScript `s.trim()`: strips leading and trailing trim characters. -/
def trim (s : String) : String :=
  ⟨((s.data.dropWhile isTrimChar).reverse.dropWhile isTrimChar).reverse⟩

/-- Lodash `find({ id })` on the collection: the position and the value of the
first record whose `id` equals the argument, `none` for `undefined`. -/
def find : Db → String → Option (Nat × User)
  | [], _ => none
  | u :: us, id =>
    if u.id = id then some (0, u)
    else (find us id).map (fun p => (p.1 + 1, p.2))

/-- In-place update of the record behind a reference. -/
def modifyAt (f : User → User) : Db → Nat → Db
  | [], _ => []
  | u :: us, 0 => f u :: us
  | u :: us, n + 1 => u :: modifyAt f us n

/-- Values that reach the `catch` block of the `PUT` handler. -/
inductive Thrown where
  /-- `new Error("Cant send coins to yourself")`, line 184. -/
  | cantSendToYourself
  /-- `new Error("Sender doesnt have enough coins")`, line 188. -/
  | notEnoughCoins
  /-- The `TypeError` of reading `coins` from `undefined` (lines 187 and 193);
  it carries no account id. -/
  | coinsOfUndefined
deriving DecidableEq

/-- What the `PUT` handler sends. -/
inductive Response where
  /-- `res.send({ sender, receiver })`. -/
  | ok (sender receiver : User)
  /-- `res.status(500).send(error)`. -/
  | error (e : Thrown)
deriving DecidableEq

/-- Handler `router.put("/:id")`, lines 178 to 203: `sender_id` is
`req.params.id`, `receiver_id` is `req.body.id`, `coinsToSend` is
`req.body.coins`.  The two `write()` calls of lines 197 and 198 persist the
store that lines 193 and 194 have already updated through the references. -/
def put (db : Db) (sender_id receiver_id : String) (coinsToSend : Num) :
    Response × Db :=
  if trim sender_id = trim receiver_id then
    (Response.error Thrown.cantSendToYourself, db)
  else
    match find db sender_id with
    | none => (Response.error Thrown.coinsOfUndefined, db)
    | some (i, sender) =>
      if sender.coins < coinsToSend then
        (Response.error Thrown.notEnoughCoins, db)
      else
        match find db receiver_id with
        | none => (Response.error Thrown.coinsOfUndefined, db)
        | some (j, receiver) =>
          let db1 := modifyAt (fun u => { u with coins := u.coins + coinsToSend }) db j
          let db2 := modifyAt (fun u => { u with coins := u.coins - coinsToSend }) db1 i
          (Response.ok (db2.getD i sender) (db2.getD j receiver), db2)

/-- Body of a `POST /users` request (swagger schema `User`): the handler reads
`username` only. -/
structure PostBody where
  username : String
  coins : Option Int
deriving DecidableEq

/-- Handler `router.post("/")`, lines 134 to 148; `newId` is the value of
`nanoid(idLength)`.  Returns the record sent and the store after `push`. -/
def post (db : Db) (newId : String) (body : PostBody) : User × Db :=
  let user : User := { id := newId, username := body.username, coins := 100 }
  (user, db ++ [user])

/-- Handler `router.get("/")`, lines 71 to 75: sends the whole collection. -/
def getAll (db : Db) : List User := db

/-- Sum of `coins` over all accounts, as an exact integer. -/
def total (db : Db) : Int := (db.map (fun u => u.coins.val)).sum

/-- A transfer request: sender id, receiver id, amount. -/
structure Transfer where
  sender_id : String
  receiver_id : String
  coins : Num
deriving DecidableEq

/-- The `PUT` handler run on a sequence of requests, one after the other:
the responses in order and the final store. -/
def runPuts : Db → List Transfer → List Response × Db
  | db, [] => ([], db)
  | db, t :: ts =>
    let r := put db t.sender_id t.receiver_id t.coins
    let rest := runPuts r.2 ts
    (r.1 :: rest.1, rest.2)

/-- The response is a success. -/
def Response.isOk : Response → Bool
  | Response.ok _ _ => true
  | Response.error _ => false

/-- The two balances that a request would write, computed exactly, are within
2^53 in magnitude, so that lines 193 and 194 do not round.  Holds when either
account is missing (nothing is written). -/
def exactStep (db : Db) (t : Transfer) : Bool :=
  match find db t.sender_id, find db t.receiver_id with
  | some (_, s0), some (_, r0) =>
    decide ((s0.coins.val - t.coins.val).natAbs ≤ 2 ^ 53) &&
    decide ((r0.coins.val + t.coins.val).natAbs ≤ 2 ^ 53)
  | _, _ => true

/-- Every request of the sequence is an `exactStep` in the store it meets. -/
def exactRun : Db → List Transfer → Bool
  | _, [] => true
  | db, t :: ts =>
    exactStep db t && exactRun (put db t.sender_id t.receiver_id t.coins).2 ts

/-- Example store: alice and bob, 100 coins each (the state after two `POST`
requests on an empty store). -/
def aliceBob : Db := [⟨"a1", "alice", 100⟩, ⟨"b1", "bob", 100⟩]

/-- Example store: a sender with 50 coins and a receiver with 10. -/
def poorSender : Db := [⟨"s1", "sam", 50⟩, ⟨"r1", "rae", 10⟩]

/-- Example store: alice with 100 coins and bob with 2^53 coins. -/
def richBob : Db := [⟨"a1", "alice", 100⟩, ⟨"b1", "bob", 9007199254740992⟩]

/-! ## Lemmas on rounding -/

theorem dropped_of_lt (fuel a : Nat) (h : a < 2 ^ 53) : dropped fuel a = 0 := by
  cases fuel with
  | zero => rfl
  | succ f => rw [dropped, if_pos h]

/-- With enough fuel the count is the one that leaves a 53-bit significand. -/
theorem dropped_eq (e : Nat) : ∀ (fuel a : Nat), e ≤ fuel → 2 ^ 52 * 2 ^ e ≤ a →
    a < 2 ^ 53 * 2 ^ e → dropped fuel a = e := by
  induction e with
  | zero =>
    intro fuel a _ _ hlt
    exact dropped_of_lt fuel a (by simpa using hlt)
  | succ e ih =>
    intro fuel a hfuel hle hlt
    cases fuel with
    | zero => omega
    | succ f =>
      have hpos : 0 < 2 ^ e := Nat.pos_of_ne_zero (by positivity)
      have hp : (2:Nat) ^ (e + 1) = 2 ^ e * 2 := pow_succ 2 _
      rw [hp] at hle hlt
      obtain ⟨K, hK⟩ : ∃ K, (2:Nat) ^ e = K := ⟨_, rfl⟩
      rw [hK] at hle hlt hpos ih
      have hge : ¬ a < 2 ^ 53 := by
        norm_num at hle ⊢
        omega
      rw [dropped, if_neg hge]
      have h1 : 2 ^ 52 * K ≤ a / 2 := by
        rw [Nat.le_div_iff_mul_le (by decide)]
        omega
      have h2 : a / 2 < 2 ^ 53 * K := by
        rw [Nat.div_lt_iff_lt_mul (by decide)]
        omega
      rw [ih f (a / 2) (by omega) h1 h2]

theorem dropped_spec : ∀ (fuel a : Nat), a < 2 ^ 53 * 2 ^ fuel → 2 ^ 53 ≤ a →
    1 ≤ dropped fuel a ∧ 2 ^ 52 * 2 ^ dropped fuel a ≤ a ∧
      a < 2 ^ 53 * 2 ^ dropped fuel a := by
  intro fuel
  induction fuel with
  | zero => intro a h1 h2; simp at h1; omega
  | succ f ih =>
    intro a hlt hge
    have hnot : ¬ a < 2 ^ 53 := by omega
    rw [dropped, if_neg hnot]
    by_cases h2 : 2 ^ 53 ≤ a / 2
    · have hlt2 : a / 2 < 2 ^ 53 * 2 ^ f := by
        rw [Nat.pow_succ] at hlt
        rw [Nat.div_lt_iff_lt_mul (by decide)]
        omega
      obtain ⟨_, h3, h4⟩ := ih (a / 2) hlt2 h2
      have hp : (2:Nat) ^ (dropped f (a / 2) + 1) = 2 ^ dropped f (a / 2) * 2 :=
        pow_succ 2 _
      rw [hp]
      obtain ⟨K, hK⟩ : ∃ K, (2:Nat) ^ dropped f (a / 2) = K := ⟨_, rfl⟩
      rw [hK] at h3 h4 ⊢
      refine ⟨by omega, ?_, ?_⟩ <;> omega
    · rw [dropped_of_lt f (a / 2) (by omega)]
      norm_num at hge h2 ⊢
      omega

theorem roundNat_fixed_aux (e q : Nat) (hq1 : 2 ^ 52 ≤ q) (hq2 : q < 2 ^ 53) :
    roundNat (q * 2 ^ e) = q * 2 ^ e := by
  have hpos : 0 < 2 ^ e := Nat.pos_of_ne_zero (by positivity)
  have hfuel : e ≤ q * 2 ^ e := by
    have h1 : e < 2 ^ e := Nat.lt_two_pow e
    have h2 : 2 ^ e ≤ q * 2 ^ e := Nat.le_mul_of_pos_left _ (by omega)
    omega
  have hd : dropped (q * 2 ^ e) (q * 2 ^ e) = e :=
    dropped_eq e _ _ hfuel (Nat.mul_le_mul_right _ hq1)
      ((Nat.mul_lt_mul_right hpos).mpr hq2)
  have hhalf : 0 < 2 ^ (e - 1) := Nat.pos_of_ne_zero (by positivity)
  simp only [roundNat, hd, Nat.mul_mod_left, Nat.mul_div_cancel _ hpos, hhalf, if_true]

theorem roundNat_fixed (e q : Nat) (hq1 : 2 ^ 52 ≤ q) (hq2 : q ≤ 2 ^ 53) :
    roundNat (q * 2 ^ e) = q * 2 ^ e := by
  by_cases h : q < 2 ^ 53
  · exact roundNat_fixed_aux e q hq1 h
  · have hq : q = 2 ^ 53 := by omega
    have h2 : q * 2 ^ e = 2 ^ 52 * 2 ^ (e + 1) := by
      rw [hq, pow_succ]; ring
    rw [h2]
    exact roundNat_fixed_aux (e + 1) (2 ^ 52) (le_refl _) (by norm_num)

theorem roundNat_form (a : Nat) (ha : 2 ^ 53 < a) :
    ∃ e q, 1 ≤ e ∧ 2 ^ 52 ≤ q ∧ q ≤ 2 ^ 53 ∧ roundNat a = q * 2 ^ e := by
  have hfuel : a < 2 ^ 53 * 2 ^ a := by
    have h1 : a < 2 ^ a := Nat.lt_two_pow a
    have h2 : 2 ^ a ≤ 2 ^ 53 * 2 ^ a := Nat.le_mul_of_pos_left _ (by norm_num)
    omega
  obtain ⟨he, h1, h2⟩ := dropped_spec a a hfuel (by omega)
  have hpos : 0 < 2 ^ dropped a a := Nat.pos_of_ne_zero (by positivity)
  have hq1 : 2 ^ 52 ≤ a / 2 ^ dropped a a := (Nat.le_div_iff_mul_le hpos).mpr h1
  have hq2 : a / 2 ^ dropped a a < 2 ^ 53 := (Nat.div_lt_iff_lt_mul hpos).mpr h2
  unfold roundNat
  simp only
  split
  · exact ⟨_, _, he, hq1, by omega, rfl⟩
  · split
    · exact ⟨_, _, he, hq1, by omega, rfl⟩
    · exact ⟨_, _, he, by omega, by omega, rfl⟩

theorem toDouble_of_natAbs_le (n : Int) (h : n.natAbs ≤ 2 ^ 53) : toDouble n = n := by
  rw [toDouble, if_pos h]

/-- Rounding is idempotent: a rounded value is a number. -/
theorem toDouble_idem (n : Int) : toDouble (toDouble n) = toDouble n := by
  by_cases h : n.natAbs ≤ 2 ^ 53
  · rw [toDouble_of_natAbs_le n h, toDouble_of_natAbs_le n h]
  · obtain ⟨e, q, he, hq1, hq2, hR⟩ := roundNat_form n.natAbs (by omega)
    have hfix := roundNat_fixed e q hq1 hq2
    have hRpos : 0 < q * 2 ^ e :=
      Nat.mul_pos (by omega) (Nat.pos_of_ne_zero (by positivity))
    by_cases hn : 0 ≤ n
    · have h1 : toDouble n = ((q * 2 ^ e : Nat) : Int) := by
        simp only [toDouble, h, hn, if_true, if_false, hR]
      rw [h1]
      by_cases h2 : (((q * 2 ^ e : Nat) : Int)).natAbs ≤ 2 ^ 53
      · exact toDouble_of_natAbs_le _ h2
      · simp only [toDouble, h2, if_false, Int.natAbs_ofNat, hfix, Int.ofNat_nonneg, if_true,
          ite_self]
    · have h1 : toDouble n = -((q * 2 ^ e : Nat) : Int) := by
        simp only [toDouble, h, hn, if_false, hR]
      rw [h1]
      by_cases h2 : (-((q * 2 ^ e : Nat) : Int)).natAbs ≤ 2 ^ 53
      · exact toDouble_of_natAbs_le _ h2
      · have hneg : ¬ (0 : Int) ≤ -((q * 2 ^ e : Nat) : Int) := by omega
        simp only [toDouble, h2, if_false, hneg, Int.natAbs_neg, Int.natAbs_ofNat, hfix,
          ite_self]

theorem toDouble_nonneg (n : Int) (h : 0 ≤ n) : 0 ≤ toDouble n := by
  unfold toDouble
  split
  · exact h
  · simp [h]

theorem Num.ext {a b : Num} (h : a.val = b.val) : a = b := by
  cases a; cases b; cases h; rfl

/-- A number is a fixed point of rounding. -/
theorem Num.toDouble_val (a : Num) : toDouble a.val = a.val := by
  obtain ⟨m, hm⟩ := a.rounded
  rw [← hm, toDouble_idem]

theorem Num.add_val (a b : Num) : (a + b).val = toDouble (a.val + b.val) := rfl

theorem Num.sub_val (a b : Num) : (a - b).val = toDouble (a.val - b.val) := rfl

theorem Num.add_val_of_le (a b : Num) (h : (a.val + b.val).natAbs ≤ 2 ^ 53) :
    (a + b).val = a.val + b.val := by
  rw [Num.add_val, toDouble_of_natAbs_le _ h]

theorem Num.sub_val_of_le (a b : Num) (h : (a.val - b.val).natAbs ≤ 2 ^ 53) :
    (a - b).val = a.val - b.val := by
  rw [Num.sub_val, toDouble_of_natAbs_le _ h]

theorem Num.zero_val : (0 : Num).val = 0 := rfl

theorem Num.add_zero (a : Num) : a + 0 = a := by
  apply Num.ext
  rw [Num.add_val, Num.zero_val, Int.add_zero, Num.toDouble_val]

theorem Num.sub_zero (a : Num) : a - 0 = a := by
  apply Num.ext
  rw [Num.sub_val, Num.zero_val, Int.sub_zero, Num.toDouble_val]

theorem Num.lt_iff (a b : Num) : a < b ↔ a.val < b.val := Iff.rfl

theorem Num.le_iff (a b : Num) : a ≤ b ↔ a.val ≤ b.val := Iff.rfl

/-! ## Lemmas on lookup and in-place update -/

theorem find_eq_some {db : Db} {id : String} {i : Nat} {u : User}
    (h : find db id = some (i, u)) : db[i]? = some u ∧ u.id = id := by
  induction db generalizing i with
  | nil => simp [find] at h
  | cons v vs ih =>
    unfold find at h
    split at h
    · simp only [Option.some.injEq, Prod.mk.injEq] at h
      obtain ⟨rfl, rfl⟩ := h
      simp [*]
    · cases hf : find vs id with
      | none => simp [hf] at h
      | some p =>
        obtain ⟨k, w⟩ := p
        simp only [hf, Option.map_some', Option.some.injEq, Prod.mk.injEq] at h
        obtain ⟨rfl, rfl⟩ := h
        simpa using ih hf

theorem find_eq_none {db : Db} {id : String} :
    find db id = none ↔ ∀ u ∈ db, u.id ≠ id := by
  induction db with
  | nil => simp [find]
  | cons v vs ih =>
    unfold find
    by_cases hv : v.id = id
    · simp [hv]
    · simp [hv, ih]

theorem find_of_mem {db : Db} (hnodup : (db.map User.id).Nodup) {u : User}
    (hu : u ∈ db) : ∃ i, find db u.id = some (i, u) := by
  induction db with
  | nil => simp at hu
  | cons v vs ih =>
    simp only [List.map_cons, List.nodup_cons, List.mem_map, not_exists, not_and] at hnodup
    unfold find
    rcases List.mem_cons.mp hu with rfl | hmem
    · exact ⟨0, by simp⟩
    · have hne : v.id ≠ u.id := fun h => hnodup.1 u hmem h.symm
      obtain ⟨k, hk⟩ := ih hnodup.2 hmem
      exact ⟨k + 1, by simp [hne, hk]⟩

theorem modifyAt_getElem? (f : User → User) (db : Db) (k i : Nat) :
    (modifyAt f db k)[i]? = if i = k then db[i]?.map f else db[i]? := by
  induction db generalizing k i with
  | nil => simp [modifyAt]
  | cons v vs ih =>
    cases k with
    | zero => cases i <;> simp [modifyAt]
    | succ k => cases i <;> simp [modifyAt, ih]

theorem total_modifyAt (f : User → User) (db : Db) (k : Nat) (u : User)
    (h : db[k]? = some u) :
    total (modifyAt f db k) = total db + ((f u).coins.val - u.coins.val) := by
  induction db generalizing k with
  | nil => simp at h
  | cons v vs ih =>
    cases k with
    | zero =>
      simp only [List.getElem?_cons_zero, Option.some.injEq] at h
      subst h
      simp only [modifyAt, total, List.map_cons, List.sum_cons]
      ring
    | succ k =>
      simp only [List.getElem?_cons_succ] at h
      have := ih k h
      simp only [total] at this
      simp only [modifyAt, total, List.map_cons, List.sum_cons, this]
      ring

theorem find_modifyAt (f : User → User) (hf : ∀ u, (f u).id = u.id) (db : Db)
    (k : Nat) (id : String) :
    find (modifyAt f db k) id
      = (find db id).map (fun p => (p.1, if p.1 = k then f p.2 else p.2)) := by
  induction db generalizing k with
  | nil => simp [modifyAt, find]
  | cons v vs ih =>
    cases k with
    | zero =>
      by_cases hv : v.id = id
      · simp [modifyAt, find, hf, hv]
      · simp only [modifyAt, find, hf, hv, if_false, Option.map_map]
        congr 1
    | succ k =>
      by_cases hv : v.id = id
      · simp [modifyAt, find, hv]
      · simp only [modifyAt, find, hv, if_false, ih, Option.map_map]
        congr 1
        funext p
        simp

theorem modifyAt_eq_map (f : User → User) {db : Db}
    (hnodup : (db.map User.id).Nodup) {id : String} {k : Nat} {u : User}
    (h : find db id = some (k, u)) :
    modifyAt f db k = db.map (fun v => if v.id = id then f v else v) := by
  induction db generalizing k with
  | nil => simp [find] at h
  | cons v vs ih =>
    simp only [List.map_cons, List.nodup_cons, List.mem_map, not_exists, not_and] at hnodup
    unfold find at h
    by_cases hv : v.id = id
    · simp only [hv, if_true, Option.some.injEq, Prod.mk.injEq] at h
      obtain ⟨rfl, rfl⟩ := h
      simp only [modifyAt, List.map_cons, hv, if_true, List.cons.injEq, true_and]
      have hid : ∀ w ∈ vs, (if w.id = id then f w else w) = w := by
        intro w hw
        have hw2 : w.id ≠ id := fun e => hnodup.1 w hw (e.trans hv.symm)
        simp [hw2]
      exact ((List.map_congr_left hid).trans (List.map_id vs)).symm
    · cases hfind : find vs id with
      | none => simp [hv, hfind] at h
      | some p =>
        obtain ⟨k0, w⟩ := p
        simp only [hv, if_false, hfind, Option.map_some', Option.some.injEq,
          Prod.mk.injEq] at h
        obtain ⟨rfl, rfl⟩ := h
        simp [modifyAt, hv, ih hnodup.2 hfind]

/-! ## The outcome of the `PUT` handler, case by case -/

theorem ne_of_trim_ne {s r : String} (h : trim s ≠ trim r) : s ≠ r :=
  fun e => h (congrArg trim e)

theorem find_index_ne {db : Db} {s r : String} {i j : Nat} {s0 r0 : User}
    (hsr : s ≠ r) (hs : find db s = some (i, s0)) (hr : find db r = some (j, r0)) :
    i ≠ j := by
  intro e
  subst e
  have h1 := find_eq_some hs
  have h2 := find_eq_some hr
  rw [h1.1] at h2
  have e2 : s0 = r0 := Option.some.inj h2.1
  exact hsr (by rw [← h1.2, e2, h2.2])

theorem put_of_found {db : Db} {s r : String} {amt : Num} {i j : Nat} {s0 r0 : User}
    (hne : trim s ≠ trim r) (hs : find db s = some (i, s0))
    (hle : ¬ s0.coins < amt) (hr : find db r = some (j, r0)) :
    put db s r amt =
      (Response.ok { s0 with coins := s0.coins - amt } { r0 with coins := r0.coins + amt },
       modifyAt (fun u => { u with coins := u.coins - amt })
         (modifyAt (fun u => { u with coins := u.coins + amt }) db j) i) := by
  have hij : i ≠ j := find_index_ne (ne_of_trim_ne hne) hs hr
  have hi := (find_eq_some hs).1
  have hj := (find_eq_some hr).1
  simp only [put, hne, if_false, hs, hle, hr, List.getD_eq_getElem?_getD,
    modifyAt_getElem?, if_true, hij, hij.symm, hi, hj, Option.map_some', Option.getD_some]

theorem put_ok_inv {db : Db} {s r : String} {amt : Num} {a b : User}
    (h : (put db s r amt).1 = Response.ok a b) :
    ∃ i j s0 r0, trim s ≠ trim r ∧ find db s = some (i, s0) ∧ ¬ s0.coins < amt ∧
      find db r = some (j, r0) := by
  unfold put at h
  split at h
  · simp at h
  · rename_i hne
    cases hs : find db s with
    | none => simp [hs] at h
    | some p =>
      obtain ⟨i, s0⟩ := p
      simp only [hs] at h
      split at h
      · simp at h
      · rename_i hle
        cases hr : find db r with
        | none => simp [hr] at h
        | some q =>
          obtain ⟨j, r0⟩ := q
          exact ⟨i, j, s0, r0, hne, rfl, hle, rfl⟩

theorem put_error_store {db : Db} {s r : String} {amt : Num} {e : Thrown}
    (h : (put db s r amt).1 = Response.error e) : (put db s r amt).2 = db := by
  by_cases hne : trim s = trim r
  · simp [put, hne]
  · cases hs : find db s with
    | none => simp [put, hne, hs]
    | some p =>
      obtain ⟨i, s0⟩ := p
      by_cases hle : s0.coins < amt
      · simp [put, hne, hs, hle]
      · cases hr : find db r with
        | none => simp [put, hne, hs, hle, hr]
        | some q =>
          obtain ⟨j, r0⟩ := q
          rw [put_of_found hne hs hle hr] at h
          simp at h

/-- When the two balances written are exact, a successful transfer keeps the
sum of coins. -/
theorem total_put_of_exact {db : Db} {s r : String} {amt : Num} {i j : Nat}
    {s0 r0 : User} (hne : trim s ≠ trim r) (hs : find db s = some (i, s0))
    (hle : ¬ s0.coins < amt) (hr : find db r = some (j, r0))
    (hes : (s0.coins.val - amt.val).natAbs ≤ 2 ^ 53)
    (her : (r0.coins.val + amt.val).natAbs ≤ 2 ^ 53) :
    total (put db s r amt).2 = total db := by
  have hij : i ≠ j := find_index_ne (ne_of_trim_ne hne) hs hr
  rw [put_of_found hne hs hle hr]
  have hi := (find_eq_some hs).1
  have hj := (find_eq_some hr).1
  have hi1 : (modifyAt (fun u => { u with coins := u.coins + amt }) db j)[i]? = some s0 := by
    rw [modifyAt_getElem?, if_neg hij, hi]
  rw [total_modifyAt _ _ i s0 hi1, total_modifyAt _ _ j r0 hj]
  simp only
  rw [Num.sub_val_of_le _ _ hes, Num.add_val_of_le _ _ her]
  ring

theorem exactStep_of_found {db : Db} {t : Transfer} {i j : Nat} {s0 r0 : User}
    (hs : find db t.sender_id = some (i, s0)) (hr : find db t.receiver_id = some (j, r0))
    (h : exactStep db t = true) :
    (s0.coins.val - t.coins.val).natAbs ≤ 2 ^ 53 ∧
      (r0.coins.val + t.coins.val).natAbs ≤ 2 ^ 53 := by
  simpa [exactStep, hs, hr] using h

theorem total_put_of_exactStep (db : Db) (t : Transfer) (h : exactStep db t = true) :
    total (put db t.sender_id t.receiver_id t.coins).2 = total db := by
  cases hresp : (put db t.sender_id t.receiver_id t.coins).1 with
  | error e => rw [put_error_store hresp]
  | ok a b =>
    obtain ⟨i, j, s0, r0, hne, hs, hle, hr⟩ := put_ok_inv hresp
    obtain ⟨hes, her⟩ := exactStep_of_found hs hr h
    exact total_put_of_exact hne hs hle hr hes her

theorem total_runPuts_of_exactRun (db : Db) (ts : List Transfer)
    (h : exactRun db ts = true) : total (runPuts db ts).2 = total db := by
  induction ts generalizing db with
  | nil => rfl
  | cons t ts ih =>
    simp only [exactRun, Bool.and_eq_true] at h
    simp only [runPuts]
    rw [ih _ h.2, total_put_of_exactStep db t h.1]

theorem modifyAt_of_fixed (f : User → User) (hf : ∀ u, f u = u) (db : Db) (k : Nat) :
    modifyAt f db k = db := by
  induction db generalizing k with
  | nil => rfl
  | cons v vs ih =>
    cases k with
    | zero => simp [modifyAt, hf]
    | succ k => simp [modifyAt, ih]

theorem map_id_modifyAt (f : User → User) (hf : ∀ u, (f u).id = u.id) (db : Db) (k : Nat) :
    (modifyAt f db k).map User.id = db.map User.id := by
  induction db generalizing k with
  | nil => rfl
  | cons v vs ih =>
    cases k with
    | zero => simp [modifyAt, hf]
    | succ k => simp [modifyAt, ih]

theorem mem_modifyAt {f : User → User} {db : Db} {k : Nat} {u : User}
    (h : u ∈ modifyAt f db k) : u ∈ db ∨ ∃ v, db[k]? = some v ∧ u = f v := by
  induction db generalizing k with
  | nil => simp [modifyAt] at h
  | cons w ws ih =>
    cases k with
    | zero =>
      simp only [modifyAt, List.mem_cons] at h
      rcases h with rfl | h
      · exact Or.inr ⟨w, by simp⟩
      · exact Or.inl (List.mem_cons_of_mem _ h)
    | succ k =>
      simp only [modifyAt, List.mem_cons] at h
      rcases h with rfl | h
      · exact Or.inl (List.mem_cons_self _ _)
      · rcases ih h with h1 | ⟨v, hv, rfl⟩
        · exact Or.inl (List.mem_cons_of_mem _ h1)
        · exact Or.inr ⟨v, by simpa using hv, rfl⟩

/-- With pairwise distinct ids the store after a successful transfer is the old
store with the sender debited and the receiver credited, record by record. -/
theorem put_of_found_map {db : Db} (hnodup : (db.map User.id).Nodup) {s r : String}
    {amt : Num} {i j : Nat} {s0 r0 : User}
    (hne : trim s ≠ trim r) (hs : find db s = some (i, s0))
    (hle : ¬ s0.coins < amt) (hr : find db r = some (j, r0)) :
    put db s r amt =
      (Response.ok { s0 with coins := s0.coins - amt } { r0 with coins := r0.coins + amt },
       db.map (fun u =>
         if u.id = s then { u with coins := u.coins - amt }
         else if u.id = r then { u with coins := u.coins + amt }
         else u)) := by
  have hsr : s ≠ r := ne_of_trim_ne hne
  have hij : i ≠ j := find_index_ne hsr hs hr
  rw [put_of_found hne hs hle hr]
  have h1 := modifyAt_eq_map (fun u => { u with coins := u.coins + amt }) hnodup hr
  have hs1 : find (modifyAt (fun u => { u with coins := u.coins + amt }) db j) s
      = some (i, s0) := by
    rw [find_modifyAt (fun u => { u with coins := u.coins + amt }) (fun _ => rfl), hs]
    simp [hij]
  have hnodup1 : ((modifyAt (fun u => { u with coins := u.coins + amt }) db j).map
      User.id).Nodup := by
    rw [map_id_modifyAt (fun u => { u with coins := u.coins + amt }) (fun _ => rfl)]
    exact hnodup
  rw [modifyAt_eq_map (fun u => { u with coins := u.coins - amt }) hnodup1 hs1, h1,
    List.map_map]
  congr 1
  apply List.map_congr_left
  intro u _
  by_cases hus : u.id = s
  · have hur : u.id ≠ r := fun e => hsr (hus.symm.trans e)
    simp [hus, hur, hsr]
  · by_cases hur : u.id = r
    · simp [hur, hsr, Ne.symm hsr]
    · simp [hus, hur]

/-- A request whose amount is not negative keeps every balance non-negative. -/
theorem put_nonneg_of_nonneg_amount (db : Db) (hdb : ∀ u ∈ db, 0 ≤ u.coins)
    (s r : String) (amt : Num) (hamt : 0 ≤ amt) :
    ∀ u ∈ (put db s r amt).2, 0 ≤ u.coins := by
  cases hresp : (put db s r amt).1 with
  | error e => rw [put_error_store hresp]; exact hdb
  | ok a b =>
    obtain ⟨i, j, s0, r0, hne, hs, hle, hr⟩ := put_ok_inv hresp
    have hij : i ≠ j := find_index_ne (ne_of_trim_ne hne) hs hr
    have hi := (find_eq_some hs).1
    rw [Num.le_iff, Num.zero_val] at hamt
    rw [Num.lt_iff] at hle
    have h1 : ∀ u ∈ modifyAt (fun u => { u with coins := u.coins + amt }) db j,
        0 ≤ u.coins := by
      intro u hu
      rcases mem_modifyAt hu with h | ⟨v, hv, rfl⟩
      · exact hdb u h
      · have hv0 := hdb v (List.getElem?_mem hv)
        rw [Num.le_iff, Num.zero_val] at hv0 ⊢
        simp only [Num.add_val]
        exact toDouble_nonneg _ (by omega)
    rw [put_of_found hne hs hle hr]
    intro u hu
    rcases mem_modifyAt hu with h | ⟨v, hv, rfl⟩
    · exact h1 u h
    · rw [modifyAt_getElem?, if_neg hij, hi] at hv
      cases Option.some.inj hv
      rw [Num.le_iff, Num.zero_val]
      simp only [Num.sub_val]
      exact toDouble_nonneg _ (by omega)

/-! ## Properties of the handlers -/

/-- C1 fails on the code: alice and bob hold 100 coins each, the ids are
distinct, the request for -(2^53 - 1) coins succeeds, and the sum of coins goes
from 200 to 201, because alice's new balance 2^53 + 99 is rounded to
2^53 + 100. -/
theorem put_rounding_breaks_conservation :
    (aliceBob.map User.id).Nodup ∧
    put aliceBob "a1" "b1" (-9007199254740991)
      = (Response.ok ⟨"a1", "alice", 9007199254741092⟩ ⟨"b1", "bob", -9007199254740891⟩,
         [⟨"a1", "alice", 9007199254741092⟩, ⟨"b1", "bob", -9007199254740891⟩]) ∧
    total aliceBob = 200 ∧
    total (put aliceBob "a1" "b1" (-9007199254740991)).2 = 201 := by
  decide

/-- C1 as amended. Conservation within the exact range: in a store with
pairwise distinct ids, a transfer request that the `PUT` handler completes
successfully, and whose two new balances (sender's coins minus the amount,
receiver's coins plus the amount) are within 2^53 in magnitude, leaves the sum
of coins unchanged; the sender's record loses exactly the amount and the
receiver's record gains exactly the amount. After any sequence of successful
transfers each of which stays within that range, the sum is the one before the
sequence. -/
theorem put_conserves_total (db : Db) (hnodup : (db.map User.id).Nodup) :
    (∀ (s r : String) (amt : Num) (a b : User) (i j : Nat) (s0 r0 : User),
        (put db s r amt).1 = Response.ok a b →
        find db s = some (i, s0) → find db r = some (j, r0) →
        (s0.coins.val - amt.val).natAbs ≤ 2 ^ 53 →
        (r0.coins.val + amt.val).natAbs ≤ 2 ^ 53 →
        total (put db s r amt).2 = total db ∧
        a.coins.val = s0.coins.val - amt.val ∧
        b.coins.val = r0.coins.val + amt.val ∧
        find (put db s r amt).2 s = some (i, a) ∧
        find (put db s r amt).2 r = some (j, b) ∧
        a = { s0 with coins := s0.coins - amt } ∧
        b = { r0 with coins := r0.coins + amt } ∧
        ((put db s r amt).2.map User.id).Nodup) ∧
    (∀ ts : List Transfer, (∀ resp ∈ (runPuts db ts).1, resp.isOk = true) →
        exactRun db ts = true →
        total (runPuts db ts).2 = total db) := by
  refine ⟨?_, fun ts _ hex => total_runPuts_of_exactRun db ts hex⟩
  intro s r amt a b i j s0 r0 hok hs hr hes her
  obtain ⟨i2, j2, s2, r2, hne, hs2, hle, hr2⟩ := put_ok_inv hok
  rw [hs] at hs2
  rw [hr] at hr2
  cases hs2
  cases hr2
  have hij : i ≠ j := find_index_ne (ne_of_trim_ne hne) hs hr
  have hput := put_of_found hne hs hle hr
  have ha : a = { s0 with coins := s0.coins - amt } := by
    rw [hput] at hok
    simp only [Response.ok.injEq] at hok
    exact hok.1.symm
  have hb : b = { r0 with coins := r0.coins + amt } := by
    rw [hput] at hok
    simp only [Response.ok.injEq] at hok
    exact hok.2.symm
  refine ⟨total_put_of_exact hne hs hle hr hes her, ?_, ?_, ?_, ?_, ha, hb, ?_⟩
  · rw [ha]
    exact Num.sub_val_of_le _ _ hes
  · rw [hb]
    exact Num.add_val_of_le _ _ her
  · rw [hput, ha]
    rw [find_modifyAt (fun u => { u with coins := u.coins - amt }) (fun _ => rfl),
      find_modifyAt (fun u => { u with coins := u.coins + amt }) (fun _ => rfl), hs]
    simp [hij]
  · rw [hput, hb]
    rw [find_modifyAt (fun u => { u with coins := u.coins - amt }) (fun _ => rfl),
      find_modifyAt (fun u => { u with coins := u.coins + amt }) (fun _ => rfl), hr]
    simp [hij.symm]
  · rw [hput]
    rw [map_id_modifyAt (fun u => { u with coins := u.coins - amt }) (fun _ => rfl),
      map_id_modifyAt (fun u => { u with coins := u.coins + amt }) (fun _ => rfl)]
    exact hnodup

/-- Instance of the amended C1 on the store of alice and bob: the transfer of
30 coins succeeds and the total stays 200, also after a second successful
transfer. -/
theorem put_conserves_total_witness :
    (aliceBob.map User.id).Nodup ∧
    (put aliceBob "a1" "b1" 30).1 = Response.ok ⟨"a1", "alice", 70⟩ ⟨"b1", "bob", 130⟩ ∧
    total (put aliceBob "a1" "b1" 30).2 = total aliceBob ∧
    (∀ resp ∈ (runPuts aliceBob [⟨"a1", "b1", 30⟩, ⟨"b1", "a1", 45⟩]).1, resp.isOk = true) ∧
    exactRun aliceBob [⟨"a1", "b1", 30⟩, ⟨"b1", "a1", 45⟩] = true ∧
    total (runPuts aliceBob [⟨"a1", "b1", 30⟩, ⟨"b1", "a1", 45⟩]).2 = total aliceBob :=
  ⟨by decide, by decide,
   ((put_conserves_total aliceBob (by decide)).1 "a1" "b1" 30
      ⟨"a1", "alice", 70⟩ ⟨"b1", "bob", 130⟩ 0 1 ⟨"a1", "alice", 100⟩ ⟨"b1", "bob", 100⟩
      (by decide) (by decide) (by decide) (by decide) (by decide)).1,
   by decide, by decide,
   (put_conserves_total aliceBob (by decide)).2 _ (by decide) (by decide)⟩

/-- C2 fails on the code. A negative amount passes the only balance check (the
sender has at least that much) and is added to the receiver: from a store with
no negative balance the handler reaches a store where the receiver holds -50. -/
theorem put_negative_amount_overdraws_receiver :
    (∀ u ∈ aliceBob, 0 ≤ u.coins) ∧
    put aliceBob "a1" "b1" (-150)
      = (Response.ok ⟨"a1", "alice", 250⟩ ⟨"b1", "bob", -50⟩,
         [⟨"a1", "alice", 250⟩, ⟨"b1", "bob", -50⟩]) ∧
    ¬ (∀ u ∈ (put aliceBob "a1" "b1" (-150)).2, 0 ≤ u.coins) := by
  decide

/-- C3 fails on the code: alice holds 100 coins and bob 2^53, the ids are
distinct, the amount 1 is positive and at most alice's coins, and the handler
answers with bob's coins still 2^53, not 2^53 + 1. -/
theorem put_rounding_loses_credit :
    (richBob.map User.id).Nodup ∧ trim "a1" ≠ trim "b1" ∧
    (0 : Num) < 1 ∧ (1 : Num) ≤ 100 ∧
    put richBob "a1" "b1" 1
      = (Response.ok ⟨"a1", "alice", 99⟩ ⟨"b1", "bob", 9007199254740992⟩,
         [⟨"a1", "alice", 99⟩, ⟨"b1", "bob", 9007199254740992⟩]) ∧
    ((9007199254740992 : Num) + 1).val ≠ (9007199254740992 : Num).val + (1 : Num).val := by
  decide

/-- C3 as amended. Successful transfer within the exact range: in a store with
pairwise distinct ids, when the two ids differ after trimming, both name
accounts of the store, the amount is positive and at most the sender's coins,
and the two new balances are within 2^53 in magnitude, the handler answers with
the sender debited by exactly the amount and the receiver credited by exactly
the amount, and the store it leaves is the old one with exactly those two
`coins` fields changed: same ids and usernames in the same order, every other
account as it was. -/
theorem put_success_postcondition (db : Db) (hnodup : (db.map User.id).Nodup)
    (s r : String) (amt : Num) (sender receiver : User)
    (hne : trim s ≠ trim r)
    (hs : sender ∈ db) (hsid : sender.id = s)
    (hr : receiver ∈ db) (hrid : receiver.id = r)
    (_hpos : 0 < amt) (hle : amt ≤ sender.coins)
    (hes : (sender.coins.val - amt.val).natAbs ≤ 2 ^ 53)
    (her : (receiver.coins.val + amt.val).natAbs ≤ 2 ^ 53) :
    put db s r amt =
      (Response.ok { sender with coins := sender.coins - amt }
                   { receiver with coins := receiver.coins + amt },
       db.map (fun u =>
         if u.id = s then { u with coins := u.coins - amt }
         else if u.id = r then { u with coins := u.coins + amt }
         else u)) ∧
    (sender.coins - amt).val = sender.coins.val - amt.val ∧
    (receiver.coins + amt).val = receiver.coins.val + amt.val ∧
    (put db s r amt).2.length = db.length ∧
    (put db s r amt).2.map User.id = db.map User.id ∧
    (put db s r amt).2.map User.username = db.map User.username ∧
    (∀ (k : Nat) (u : User), db[k]? = some u → u.id ≠ s → u.id ≠ r →
      (put db s r amt).2[k]? = some u) := by
  obtain ⟨i, hi⟩ := find_of_mem hnodup hs
  obtain ⟨j, hj⟩ := find_of_mem hnodup hr
  rw [hsid] at hi
  rw [hrid] at hj
  have hnlt : ¬ sender.coins < amt := by
    rw [Num.lt_iff]
    rw [Num.le_iff] at hle
    omega
  have hput := put_of_found_map hnodup hne hi hnlt hj
  refine ⟨hput, Num.sub_val_of_le _ _ hes, Num.add_val_of_le _ _ her, ?_, ?_, ?_, ?_⟩
  · rw [hput]; simp
  · rw [hput]
    simp only [List.map_map]
    apply List.map_congr_left
    intro u _
    simp only [Function.comp]
    split
    · rfl
    · split <;> rfl
  · rw [hput]
    simp only [List.map_map]
    apply List.map_congr_left
    intro u _
    simp only [Function.comp]
    split
    · rfl
    · split <;> rfl
  · intro k u hk hus hur
    rw [hput]
    simp [List.getElem?_map, hk, hus, hur]

/-- Instance of the amended C3: alice 100, bob 100, a transfer of 30 answers
with sender 70 and receiver 130. -/
theorem put_success_postcondition_witness :
    put aliceBob "a1" "b1" 30 =
      (Response.ok ⟨"a1", "alice", 70⟩ ⟨"b1", "bob", 130⟩,
       [⟨"a1", "alice", 70⟩, ⟨"b1", "bob", 130⟩]) :=
  (put_success_postcondition aliceBob (by decide) "a1" "b1" 30
    ⟨"a1", "alice", 100⟩ ⟨"b1", "bob", 100⟩ (by decide) (by decide) rfl
    (by decide) rfl (by decide) (by decide) (by decide) (by decide)).1

/-- C4. Insufficient funds: when the ids differ after trimming and the sender
exists with fewer coins than the amount, the handler fails with the
not-enough-coins error and the store is unchanged, whatever the receiver. -/
theorem put_insufficient_funds (db : Db) (s r : String) (amt : Num) (i : Nat)
    (sender : User) (hne : trim s ≠ trim r) (hs : find db s = some (i, sender))
    (hlt : sender.coins < amt) :
    put db s r amt = (Response.error Thrown.notEnoughCoins, db) := by
  simp [put, hne, hs, hlt]

/-- Instance of C4: a sender with 50 coins asked for 100. -/
theorem put_insufficient_funds_witness :
    put poorSender "s1" "r1" 100 = (Response.error Thrown.notEnoughCoins, poorSender) :=
  put_insufficient_funds poorSender "s1" "r1" 100 0 ⟨"s1", "sam", 50⟩
    (by decide) (by decide) (by decide)

/-- C5. Self-transfer: a request whose two ids are equal after trimming fails
with the self-transfer error and leaves the store unchanged, for every store
(so before any lookup) and every amount; in particular for the id of an
existing account used on both sides. -/
theorem put_self_transfer (db : Db) :
    (∀ X ∈ db, ∀ n : Num,
        put db X.id X.id n = (Response.error Thrown.cantSendToYourself, db)) ∧
    (∀ (s r : String) (n : Num), trim s = trim r →
        put db s r n = (Response.error Thrown.cantSendToYourself, db)) := by
  refine ⟨fun X _ n => ?_, fun s r n h => ?_⟩
  · simp [put]
  · simp [put, h]

/-- Instance of C5: alice to alice, and alice to her id padded with blanks. -/
theorem put_self_transfer_witness :
    put aliceBob "a1" "a1" 30 = (Response.error Thrown.cantSendToYourself, aliceBob) ∧
    put aliceBob " a1" "a1\t\n" 30 = (Response.error Thrown.cantSendToYourself, aliceBob) :=
  ⟨(put_self_transfer aliceBob).1 ⟨"a1", "alice", 100⟩ (by decide) 30,
   (put_self_transfer aliceBob).2 " a1" "a1\t\n" 30 (by decide)⟩

/-- C6. Unknown id: when the sender id or the receiver id matches no account,
the handler fails and the store is unchanged; an existing sender with enough
coins is not debited when only the receiver is unknown. -/
theorem put_unknown_id_no_mutation (db : Db) (s r : String) (amt : Num)
    (h : find db s = none ∨ find db r = none) :
    ∃ e, put db s r amt = (Response.error e, db) := by
  by_cases hne : trim s = trim r
  · exact ⟨Thrown.cantSendToYourself, by simp [put, hne]⟩
  · cases hs : find db s with
    | none => exact ⟨Thrown.coinsOfUndefined, by simp [put, hne, hs]⟩
    | some p =>
      obtain ⟨i, s0⟩ := p
      have hr : find db r = none := by
        rcases h with h | h
        · rw [hs] at h; cases h
        · exact h
      by_cases hlt : s0.coins < amt
      · exact ⟨Thrown.notEnoughCoins, by simp [put, hne, hs, hlt]⟩
      · exact ⟨Thrown.coinsOfUndefined, by simp [put, hne, hs, hlt, hr]⟩

/-- Instance of C6: alice has 100 coins, the receiver id is unknown, and the
request for 30 coins leaves alice with 100. -/
theorem put_unknown_id_no_mutation_witness :
    find aliceBob "zz" = none ∧
    ∃ e, put aliceBob "a1" "zz" 30 = (Response.error e, aliceBob) :=
  ⟨by decide, put_unknown_id_no_mutation aliceBob "a1" "zz" 30 (Or.inr (by decide))⟩

/-- C7 fails on the code: a zero amount between two existing accounts is
answered with success, not with an error. -/
theorem put_zero_amount_not_rejected :
    put aliceBob "a1" "b1" 0
      = (Response.ok ⟨"a1", "alice", 100⟩ ⟨"b1", "bob", 100⟩, aliceBob) ∧
    ¬ ∃ e, (put aliceBob "a1" "b1" 0).1 = Response.error e := by
  have hput : put aliceBob "a1" "b1" 0
      = (Response.ok ⟨"a1", "alice", 100⟩ ⟨"b1", "bob", 100⟩, aliceBob) := by decide
  refine ⟨hput, ?_⟩
  rintro ⟨e, he⟩
  rw [hput] at he
  cases he

/-- C7 as amended. The handler has no check on the sign of the amount. For a
zero amount between two existing accounts whose ids differ after trimming the
store is unchanged; the request succeeds, returning the two accounts as they
are, unless the sender's coins are negative, in which case it fails with the
not-enough-coins error. -/
theorem put_zero_amount (db : Db) (s r : String) (i j : Nat) (sender receiver : User)
    (hne : trim s ≠ trim r) (hs : find db s = some (i, sender))
    (hr : find db r = some (j, receiver)) :
    put db s r 0 =
      (if sender.coins < 0 then Response.error Thrown.notEnoughCoins
       else Response.ok sender receiver, db) := by
  by_cases hlt : sender.coins < 0
  · simp [put, hne, hs, hlt]
  · rw [put_of_found hne hs hlt hr, if_neg hlt]
    have hfix1 : ∀ u : User, ({ u with coins := u.coins + 0 } : User) = u := by
      intro u; cases u; simp [Num.add_zero]
    have hfix2 : ∀ u : User, ({ u with coins := u.coins - 0 } : User) = u := by
      intro u; cases u; simp [Num.sub_zero]
    rw [modifyAt_of_fixed _ hfix1, modifyAt_of_fixed _ hfix2, hfix1, hfix2]

/-- Instance of the amended C7 on the store of alice and bob. -/
theorem put_zero_amount_witness :
    put aliceBob "a1" "b1" 0
      = (if (100 : Num) < 0 then Response.error Thrown.notEnoughCoins
         else Response.ok ⟨"a1", "alice", 100⟩ ⟨"b1", "bob", 100⟩, aliceBob) :=
  put_zero_amount aliceBob "a1" "b1" 0 1 ⟨"a1", "alice", 100⟩ ⟨"b1", "bob", 100⟩
    (by decide) (by decide) (by decide)

/-- C8. Account creation: the `POST` handler returns an account with the
generated id, the username of the request and 100 coins, whatever `coins` the
request body carries; the list served by `GET /users` afterwards is the old
list followed by that account, every old account at its old position, and the
total of coins has grown by 100. -/
theorem post_appends_account (db : Db) (newId : String) (body : PostBody) :
    (post db newId body).1 = ⟨newId, body.username, 100⟩ ∧
    (post db newId body).1.username = body.username ∧
    (post db newId body).1.coins = 100 ∧
    getAll (post db newId body).2 = getAll db ++ [(post db newId body).1] ∧
    (∀ (k : Nat) (u : User), db[k]? = some u → (post db newId body).2[k]? = some u) ∧
    (post db newId body).2.length = db.length + 1 ∧
    total (post db newId body).2 = total db + 100 := by
  refine ⟨rfl, rfl, rfl, rfl, ?_, ?_, ?_⟩
  · intro k u hk
    have hlt : k < db.length := by
      by_contra hge
      rw [List.getElem?_eq_none (not_lt.mp hge)] at hk
      cases hk
    simp only [post]
    rw [List.getElem?_append_left hlt]
    exact hk
  · simp [post]
  · have h100 : (100 : Num).val = 100 := rfl
    simp [post, total, h100]

/-- Instance of C8: a third account is created on the store of alice and bob
from a body that asks for 5000 coins. -/
theorem post_appends_account_witness :
    post aliceBob "c1" ⟨"carol", some 5000⟩
      = (⟨"c1", "carol", 100⟩,
         [⟨"a1", "alice", 100⟩, ⟨"b1", "bob", 100⟩, ⟨"c1", "carol", 100⟩]) ∧
    (post aliceBob "c1" ⟨"carol", some 5000⟩).2[1]? = some ⟨"b1", "bob", 100⟩ ∧
    total (post aliceBob "c1" ⟨"carol", some 5000⟩).2 = total aliceBob + 100 :=
  ⟨by decide,
   (post_appends_account aliceBob "c1" ⟨"carol", some 5000⟩).2.2.2.2.1 1
     ⟨"b1", "bob", 100⟩ (by decide),
   (post_appends_account aliceBob "c1" ⟨"carol", some 5000⟩).2.2.2.2.2.2⟩

/-- C9 fails on the code: the balance check comes before the receiver lookup,
so a sender with 50 coins asked for 100 towards an unknown receiver gets the
not-enough-coins error, not an error about the receiver. -/
theorem put_balance_checked_before_receiver :
    find poorSender "zz" = none ∧
    put poorSender "s1" "zz" 100 = (Response.error Thrown.notEnoughCoins, poorSender) := by
  decide

/-- C9 as amended. The checks of the handler run in the order self-transfer,
sender lookup, sender balance, receiver lookup, and the first one that fails
decides the answer; no check of the amount's sign exists. Equal ids after
trimming give the self-transfer error even when neither id is known; otherwise
an unknown sender fails at the sender lookup whatever the amount and the
receiver; otherwise a sender with fewer coins than the amount gives the
not-enough-coins error even when the receiver is unknown; otherwise an unknown
receiver fails at the receiver lookup. The store is unchanged in all four. -/
theorem put_validation_order (db : Db) (s r : String) (amt : Num) :
    (trim s = trim r →
        put db s r amt = (Response.error Thrown.cantSendToYourself, db)) ∧
    (trim s ≠ trim r → find db s = none →
        put db s r amt = (Response.error Thrown.coinsOfUndefined, db)) ∧
    (trim s ≠ trim r → ∀ (i : Nat) (sender : User), find db s = some (i, sender) →
        sender.coins < amt →
        put db s r amt = (Response.error Thrown.notEnoughCoins, db)) ∧
    (trim s ≠ trim r → ∀ (i : Nat) (sender : User), find db s = some (i, sender) →
        ¬ sender.coins < amt → find db r = none →
        put db s r amt = (Response.error Thrown.coinsOfUndefined, db)) := by
  refine ⟨fun h => ?_, fun hne hs => ?_, fun hne i sender hs hlt => ?_,
    fun hne i sender hs hle hr => ?_⟩
  · simp [put, h]
  · simp [put, hne, hs]
  · simp [put, hne, hs, hlt]
  · simp [put, hne, hs, hle, hr]

/-- Instances of the amended C9, one for each check: both ids unknown and equal
after trimming; unknown sender with an unknown receiver and an amount nobody
holds; poor sender with an unknown receiver; rich sender with an unknown
receiver. -/
theorem put_validation_order_witness :
    put poorSender "zz " "zz" 100 = (Response.error Thrown.cantSendToYourself, poorSender) ∧
    put poorSender "zz" "yy" 1000 = (Response.error Thrown.coinsOfUndefined, poorSender) ∧
    put poorSender "s1" "yy" 51 = (Response.error Thrown.notEnoughCoins, poorSender) ∧
    put poorSender "s1" "yy" 50 = (Response.error Thrown.coinsOfUndefined, poorSender) :=
  ⟨(put_validation_order poorSender "zz " "zz" 100).1 (by decide),
   (put_validation_order poorSender "zz" "yy" 1000).2.1 (by decide) (by decide),
   (put_validation_order poorSender "s1" "yy" 51).2.2.1 (by decide) 0
     ⟨"s1", "sam", 50⟩ (by decide) (by decide),
   (put_validation_order poorSender "s1" "yy" 50).2.2.2 (by decide) 0
     ⟨"s1", "sam", 50⟩ (by decide) (by decide) (by decide)⟩

/-- Two equal requests for 60 coins served one after the other on a sender
with 100 coins: the first succeeds, the second fails with the
not-enough-coins error, and the store ends with 40 and 60. -/
theorem contended_transfers_in_sequence :
    runPuts [⟨"A", "a", 100⟩, ⟨"B", "b", 0⟩] [⟨"A", "B", 60⟩, ⟨"A", "B", 60⟩]
      = ([Response.ok ⟨"A", "a", 40⟩ ⟨"B", "b", 60⟩,
          Response.error Thrown.notEnoughCoins],
         [⟨"A", "a", 40⟩, ⟨"B", "b", 60⟩]) := by
  decide

end CoinsApi
